import Mathlib

/-!
Verification of the RealData YouTube search service (`src/index.js`).

The file shallowly embeds the orchestration logic of the service:
request-parameter parsing (`parseInt` + `||` defaulting + clamping), the
merge/dedup/rank pipeline of the `GET /search` handler, the comment
fetcher `getComments` (timeout race + error absorption), and the batch
scheduler `runInBatches`.  Asynchrony is embedded by making the settled
outcome of each asynchronous step an explicit parameter: a settled
promise is an `Except` value, the winner of the timeout race is a
`RaceWinner` parameter, and the comment stream yielded by the provider
is a list followed by an optional error.
-/

/-- A video summary as produced by the search provider.  Fields other
than `id` may be absent (`none` models a missing / `undefined` field).
In the places where the JavaScript code tests a field for truthiness,
absence and falsy values (`0`, `""`) are distinguished explicitly. -/
structure Video where
  id : String
  title : Option String := none
  url : Option String := none
  views : Option Nat := none
  uploadedAt : Option String := none
deriving DecidableEq, Repr

/-- One comment object yielded by the comment provider's iterator. -/
structure Comment where
  text : String
deriving DecidableEq, Repr

/- ------------------------------------------------------------------ -/
/- Request parameter parsing (src/index.js lines 68-69)               -/
/- ------------------------------------------------------------------ -/

/-- Value of a digit list read in base 10 (the digit-consuming loop of
JavaScript `parseInt`). -/
def digitsToNat (ds : List Char) : Nat :=
  ds.foldl (fun n c => n * 10 + (c.toNat - 48)) 0

/-- JavaScript `parseInt` on a string argument: skip leading
whitespace, consume an optional sign and then a maximal run of decimal
digits; `none` models `NaN` (no digits found). -/
def jsParseInt (s : String) : Option Int :=
  let cs := s.toList.dropWhile (fun c => c = ' ' || c = '\t' || c = '\n' || c = '\r')
  match cs with
  | '-' :: rest =>
      let ds := rest.takeWhile Char.isDigit
      if ds.isEmpty then none else some (-(digitsToNat ds : Int))
  | '+' :: rest =>
      let ds := rest.takeWhile Char.isDigit
      if ds.isEmpty then none else some ((digitsToNat ds : Int))
  | _ =>
      let ds := cs.takeWhile Char.isDigit
      if ds.isEmpty then none else some ((digitsToNat ds : Int))

/-- `parseInt(req.query.p)` where the query parameter may be absent:
an absent parameter parses to `NaN` (`none`). -/
def parseQueryParam (q : Option String) : Option Int :=
  q.bind jsParseInt

/-- JavaScript `x || d` where `x` is the result of `parseInt`: both
`NaN` and `0` are falsy and fall through to the default. -/
def jsOrInt (x : Option Int) (d : Int) : Int :=
  match x with
  | none => d
  | some n => if n = 0 then d else n

/-- `Math.min(Math.max(parseInt(req.query.suggestionCount) || 4, 0), 10)`
(src/index.js line 68). -/
def suggestionCountOf (q : Option String) : Int :=
  min (max (jsOrInt (parseQueryParam q) 4) 0) 10

/-- `Math.min(Math.max(parseInt(req.query.videoCount) || 15, 1), 50)`
(src/index.js line 69). -/
def videoCountOf (q : Option String) : Int :=
  min (max (jsOrInt (parseQueryParam q) 15) 1) 50

/- ------------------------------------------------------------------ -/
/- Merge / dedup / rank pipeline (src/index.js lines 103-125)         -/
/- ------------------------------------------------------------------ -/

/-- The settled per-term search results: `Promise.allSettled` over the
per-term searches.  Each fulfilled entry carries the list returned by
the search provider, whose elements may be `null` (`none`). -/
abbrev SettledSearch := List (Except String (List (Option Video)))

/-- Lines 103-107: keep fulfilled results, extract their values,
flatten, and keep entries for which `video && video.id` is truthy
(non-null video with a non-empty id string). -/
def mergedOf (searchResults : SettledSearch) : List Video :=
  (((searchResults.filter fun r => r.toOption.isSome).map
      fun r => r.toOption.getD []).flatten).filterMap
    fun ov =>
      match ov with
      | some v => if v.id = "" then none else some v
      | none => none

/-- One `map.set(k, v)` step of building `new Map(entries)`: if the key
is already present its value is overwritten in place, otherwise the
pair is appended (JavaScript `Map` preserves first-insertion key
order and keeps the last value set for a key). -/
def jsMapSet (acc : List (String × Video)) (k : String) (v : Video) :
    List (String × Video) :=
  if acc.any (fun p => p.1 = k) then
    acc.map (fun p => if p.1 = k then (k, v) else p)
  else acc ++ [(k, v)]

/-- `new Map(merged.map((v) => [v.id, v]))` as its ordered entry list. -/
def jsMapPairs (l : List Video) : List (String × Video) :=
  l.foldl (fun acc v => jsMapSet acc v.id v) []

/-- `Array.from(new Map(merged.map((v) => [v.id, v])).values())`
(src/index.js lines 120-122). -/
def jsMapValues (l : List Video) : List Video :=
  (jsMapPairs l).map Prod.snd

/-- `v.views || 0`: view count with absent treated as 0. -/
def viewsOrZero (v : Video) : Nat :=
  v.views.getD 0

/-- Truthiness of `v.views`: present and non-zero. -/
def viewsTruthy (v : Video) : Bool :=
  match v.views with
  | some n => decide (n ≠ 0)
  | none => false

/-- The sort comparator `(a, b) => (b.views || 0) - (a.views || 0)`
read as "`a` may stay before `b`", i.e. comparator value `≤ 0`. -/
def viewsDescLe (a b : Video) : Bool :=
  decide (viewsOrZero b ≤ viewsOrZero a)

/-- Stable insertion of one element into an already sorted list: the
element is placed before the first element it need not follow. -/
def jsInsert (le : α → α → Bool) (x : α) : List α → List α
  | [] => [x]
  | y :: ys => if le x y then x :: y :: ys else y :: jsInsert le x ys

/-- `Array.prototype.sort(comparator)` — a stable sort by the given
"may stay before" relation (ECMAScript requires sort stability). -/
def jsStableSort (le : α → α → Bool) : List α → List α
  | [] => []
  | x :: xs => jsInsert le x (jsStableSort le xs)

/-- Index clamping of `Array.prototype.slice`: a negative index counts
from the end (clamped at 0), a non-negative one is clamped at the
length. -/
def jsSliceIndex (len : Nat) (x : Int) : Nat :=
  if x < 0 then ((len : Int) + x).toNat else min x.toNat len

/-- `Array.prototype.slice(start, stop)`. -/
def jsSlice (l : List α) (start stop : Int) : List α :=
  (l.take (jsSliceIndex l.length stop)).drop (jsSliceIndex l.length start)

/-- Lines 120-125: dedup by id via `Map`, keep entries whose `views`
and `id` are truthy, sort by view count descending, truncate to
`videoCount`. -/
def uniqueVideosOf (merged : List Video) (videoCount : Int) : List Video :=
  jsSlice
    (jsStableSort viewsDescLe
      ((jsMapValues merged).filter fun v => viewsTruthy v && decide (v.id ≠ "")))
    0 videoCount

/- ------------------------------------------------------------------ -/
/- Comment fetcher getComments (src/index.js lines 15-43)             -/
/- ------------------------------------------------------------------ -/

/-- Which side of `Promise.race([task, timeout])` settles first. -/
inductive RaceWinner
  | task
  | timer
deriving DecidableEq, Repr

/-- The `for await` loop of `getComments` (lines 27-32): comments with
text longer than 15 characters are collected until `limit` is reached;
the length test against `limit` happens after a possible push.  The
provider's stream is a list of yielded comments followed by an
optional error raised by the iterator after them. -/
def commentLoop (limit : Nat) : List String → List Comment → Option String →
    Except String (List String)
  | acc, [], none => .ok acc
  | _, [], some e => .error e
  | acc, c :: rest, err =>
      let acc' := if 15 < c.text.length then acc ++ [c.text] else acc
      if limit ≤ acc'.length then .ok acc'
      else commentLoop limit acc' rest err

/-- The settled outcome of `Promise.race([task, timeout])` inside
`getComments`, before the surrounding `try/catch`. -/
def getCommentsRaw (limit : Nat) (winner : RaceWinner) (stream : List Comment)
    (provErr : Option String) : Except String (List String) :=
  match winner with
  | .timer => .error "Comment fetch timeout"
  | .task => commentLoop limit [] stream provErr

/-- `getComments(videoId, limit, timeoutMs)` (lines 15-43): the raced
task wrapped in `try/catch`, which converts any rejection — timeout or
provider error — into an empty list. -/
def getComments (videoId : String) (limit : Nat) (timeoutMs : Nat)
    (winner : RaceWinner) (stream : List Comment) (provErr : Option String) :
    List String :=
  match getCommentsRaw limit winner stream provErr with
  | .ok cs => cs
  | .error _ => []

/- ------------------------------------------------------------------ -/
/- Batch scheduler runInBatches (src/index.js lines 49-57)            -/
/- ------------------------------------------------------------------ -/

/-- The loop `for (let i = 0; i < items.length; i += batchSize)` of
`runInBatches`, with explicit fuel so that a non-advancing index is
observable as exhaustion at every fuel: each iteration slices the next
batch, applies `fn` to every element (`Promise.allSettled` collects
one settled `Except` outcome per element) and appends the outcomes.
`fn a` is the settled outcome of the asynchronous call `fn(a)`. -/
def runInBatchesFuel (fn : α → Except ε β) (items : List α) (batchSize : Int) :
    Nat → Int → List (Except ε β) → Option (List (Except ε β))
  | 0, _, _ => none
  | fuel + 1, i, results =>
      if i < (items.length : Int) then
        runInBatchesFuel fn items batchSize fuel (i + batchSize)
          (results ++ (jsSlice items i (i + batchSize)).map fn)
      else some results

/-- `runInBatches(items, batchSize, fn)` (lines 49-57).  The fuel
`items.length + 1` bounds the number of loop iterations; it suffices
whenever the loop terminates (the index advances by `batchSize ≥ 1`
each iteration), so `none` means the JavaScript loop never exits. -/
def runInBatches (items : List α) (batchSize : Int) (fn : α → Except ε β) :
    Option (List (Except ε β)) :=
  runInBatchesFuel fn items batchSize (items.length + 1) 0 []

/- ------------------------------------------------------------------ -/
/- Enrichment and the /search handler core (lines 103-158)            -/
/- ------------------------------------------------------------------ -/

/-- JavaScript `x || d` on an optional string: absent and the empty
string are falsy. -/
def jsOrString (x : Option String) (d : String) : String :=
  match x with
  | none => d
  | some s => if s = "" then d else s

/-- JavaScript `x || null` on an optional string. -/
def jsOrNullString (x : Option String) : Option String :=
  match x with
  | none => none
  | some s => if s = "" then none else some s

/-- The enriched record assembled per video (lines 136-143). -/
structure EnrichedVideo where
  id : String
  title : String
  url : String
  views : Nat
  uploadedAt : Option String
  comments : List String
deriving DecidableEq, Repr

/-- The behaviour of the comment fetch for one video id: which side of
the race wins, the stream the provider yields, and the error (if any)
its iterator raises after the stream. -/
structure CommentFetch where
  winner : RaceWinner
  stream : List Comment
  provErr : Option String

/-- The per-item function passed to `runInBatches` (lines 130-148):
fetch comments (`getComments(v.id, 15)`, default timeout 8000) and
assemble the record; `fault` says whether the assembly throws for this
video, in which case the `catch` returns `null` (`none`).  Since
`getComments` never rejects, the inner `allSettled` outcome is always
fulfilled and its value is used directly. -/
def enrichOne (oracle : String → CommentFetch) (fault : Video → Bool)
    (v : Video) : Option EnrichedVideo :=
  if fault v then none
  else
    let cf := oracle v.id
    some
      { id := v.id
        title := jsOrString v.title "Unknown Title"
        url := jsOrString v.url ("https://youtube.com/watch?v=" ++ v.id)
        views := viewsOrZero v
        uploadedAt := jsOrNullString v.uploadedAt
        comments := getComments v.id 15 8000 cf.winner cf.stream cf.provErr }

/-- The JSON body of a (200) response of the handler; fields absent
from a branch are `none`. -/
structure SearchResponse where
  query : String
  suggestionCount : Option Int := none
  videoCount : Option Int := none
  totalVideos : Option Nat := none
  videos : List EnrichedVideo
  message : Option String := none
deriving DecidableEq, Repr

/-- The short-circuit body returned when the merged list is empty
(lines 110-117). -/
def noResultsResponse (query : String) (sc vc : Int) : SearchResponse :=
  { query := query
    suggestionCount := some sc
    videoCount := some vc
    totalVideos := some 0
    videos := []
    message := some "No videos found for the given query" }

/-- Lines 103-158 of the `GET /search` handler, from the settled
per-term search results to the response body: merge, short-circuit on
empty, dedup/filter/sort/truncate, enrich in batches of 5, keep
fulfilled non-null outcomes. -/
def searchHandlerCore (query : String) (sc vc : Int)
    (searchResults : SettledSearch) (oracle : String → CommentFetch)
    (fault : Video → Bool) : SearchResponse :=
  let merged := mergedOf searchResults
  if merged.isEmpty then noResultsResponse query sc vc
  else
    let uniqueVideos := uniqueVideosOf merged vc
    let results :=
      (runInBatches uniqueVideos 5 fun v =>
        (Except.ok (enrichOne oracle fault v) : Except String (Option EnrichedVideo))).getD []
    let enriched := results.filterMap fun r =>
      match r with
      | .ok (some e) => some e
      | _ => none
    { query := query, videos := enriched }

/- ------------------------------------------------------------------ -/
/- C2: videoCount clamping                                            -/
/- ------------------------------------------------------------------ -/

/-- C2 counterexample: a request with `videoCount=0` does NOT behave as
`videoCount=1`; because `0` is falsy, `parseInt("0") || 15` falls back
to the default and yields `15`. -/
theorem videoCount_zero_is_default :
    videoCountOf (some "0") = 15 ∧ videoCountOf (some "1") = 1 ∧
    videoCountOf (some "0") ≠ videoCountOf (some "1") := by
  refine ⟨by decide, by decide, by decide⟩

/-- C2 (amended): `videoCount` always lands in [1, 50]; the default 15
is used when the parameter is absent, not a valid integer, or parses
to `0` (which is falsy); any other parsed value is clamped to
[1, 50]. -/
theorem videoCount_clamp_spec (q : Option String) :
    1 ≤ videoCountOf q ∧ videoCountOf q ≤ 50
    ∧ ((parseQueryParam q = none ∨ parseQueryParam q = some 0) → videoCountOf q = 15)
    ∧ (∀ n : Int, parseQueryParam q = some n → n ≠ 0 →
        videoCountOf q = min (max n 1) 50) := by
  rcases h : parseQueryParam q with _ | n
  · simp only [videoCountOf, jsOrInt, h]
    exact ⟨by omega, by omega, fun _ => by omega, by simp⟩
  · by_cases hz : n = 0
    · subst hz
      simp only [videoCountOf, jsOrInt, h, if_pos rfl]
      refine ⟨by decide, by decide, fun _ => by decide, ?_⟩
      intro m hm hm0
      exact absurd (Option.some.inj hm).symm hm0
    · simp only [videoCountOf, jsOrInt, h, if_neg hz]
      refine ⟨by omega, by omega, ?_, ?_⟩
      · rintro (hc | hc)
        · cases hc
        · exact absurd (Option.some.inj hc) hz
      · intro m hm hm0
        rw [Option.some.inj hm]

/-- C2 witness: the amended theorem applied at a non-numeric parameter
string gives back the default. -/
theorem videoCount_clamp_spec_witness : videoCountOf (some "abc") = 15 :=
  (videoCount_clamp_spec (some "abc")).2.2.1 (Or.inl rfl)

/- ------------------------------------------------------------------ -/
/- C5: suggestionCount clamping                                       -/
/- ------------------------------------------------------------------ -/

/-- C5 counterexample: an explicit `suggestionCount=0` is NOT honored
as `0`; `parseInt("0") || 4` falls back to the default `4`. -/
theorem suggestionCount_zero_not_honored :
    suggestionCountOf (some "0") ≠ 0 ∧ suggestionCountOf (some "0") = 4 := by
  refine ⟨by decide, by decide⟩

/-- C5 (amended): `suggestionCount` always lands in [0, 10]; the
default 4 is used when the parameter is absent, not a valid integer,
or parses to `0` (which is falsy); any other parsed value is clamped
to [0, 10] — in particular `suggestionCount=999` behaves as `10`. -/
theorem suggestionCount_clamp_spec (q : Option String) :
    0 ≤ suggestionCountOf q ∧ suggestionCountOf q ≤ 10
    ∧ ((parseQueryParam q = none ∨ parseQueryParam q = some 0) → suggestionCountOf q = 4)
    ∧ (∀ n : Int, parseQueryParam q = some n → n ≠ 0 →
        suggestionCountOf q = min (max n 0) 10) := by
  rcases h : parseQueryParam q with _ | n
  · simp only [suggestionCountOf, jsOrInt, h]
    exact ⟨by omega, by omega, fun _ => by omega, by simp⟩
  · by_cases hz : n = 0
    · subst hz
      simp only [suggestionCountOf, jsOrInt, h, if_pos rfl]
      refine ⟨by decide, by decide, fun _ => by decide, ?_⟩
      intro m hm hm0
      exact absurd (Option.some.inj hm).symm hm0
    · simp only [suggestionCountOf, jsOrInt, h, if_neg hz]
      refine ⟨by omega, by omega, ?_, ?_⟩
      · rintro (hc | hc)
        · cases hc
        · exact absurd (Option.some.inj hc) hz
      · intro m hm hm0
        rw [Option.some.inj hm]

/-- C5 witness: the amended theorem applied at `suggestionCount=999`
yields the upper clamp `10`. -/
theorem suggestionCount_clamp_spec_witness : suggestionCountOf (some "999") = 10 :=
  ((suggestionCount_clamp_spec (some "999")).2.2.2 999 rfl (by decide)).trans (by decide)

/- ------------------------------------------------------------------ -/
/- Comment loop characterization (shared helper)                      -/
/- ------------------------------------------------------------------ -/

/-- On the success path the comment loop returns the accumulator
extended with the long-enough comment texts of the stream, truncated
to the remaining capacity — provided the accumulator is strictly below
`limit` (so the final result is reached by the break or the stream
end, never by the overshooting first push). -/
theorem commentLoop_ok_eq (limit : Nat) :
    ∀ (stream : List Comment) (acc : List String) (err : Option String)
      (cs : List String),
      acc.length < limit →
      commentLoop limit acc stream err = .ok cs →
      cs = acc ++ ((stream.map Comment.text).filter
        (fun s => decide (15 < s.length))).take (limit - acc.length) := by
  intro stream
  induction stream with
  | nil =>
      intro acc err cs hlt hok
      cases err with
      | none =>
          simp only [commentLoop] at hok
          cases hok
          simp
      | some e =>
          simp only [commentLoop] at hok
          cases hok
  | cons c rest ih =>
      intro acc err cs hlt hok
      simp only [commentLoop] at hok
      by_cases hlong : 15 < c.text.length
      · rw [if_pos hlong] at hok
        by_cases hstop : limit ≤ (acc ++ [c.text]).length
        · rw [if_pos hstop] at hok
          cases hok
          have hcap : limit - acc.length = 1 := by
            simp only [List.length_append, List.length_singleton] at hstop
            omega
          simp [hlong, hcap]
        · rw [if_neg hstop] at hok
          have hlt' : (acc ++ [c.text]).length < limit := by omega
          have h := ih (acc ++ [c.text]) err cs hlt' hok
          have hcap : limit - acc.length = (limit - (acc ++ [c.text]).length) + 1 := by
            simp only [List.length_append, List.length_singleton] at hstop ⊢
            omega
          simp [hlong, hcap, h, List.take_succ_cons]
      · rw [if_neg hlong] at hok
        have hstop : ¬ limit ≤ acc.length := by omega
        rw [if_neg hstop] at hok
        have h := ih acc err cs hlt hok
        simp [hlong, h]

/- ------------------------------------------------------------------ -/
/- C6: the comment fetcher never propagates failures                  -/
/- ------------------------------------------------------------------ -/

/-- C6: for every videoId, limit and positive timeout, `getComments`
never propagates a failure: any rejection of the raced task (provider
error or timer firing first) is converted into the empty list, and a
video whose comment fetch times out is still enriched successfully
with `comments = []`. -/
theorem getComments_never_fails (videoId : String) (limit timeoutMs : Nat)
    (winner : RaceWinner) (stream : List Comment) (provErr : Option String)
    (htm : 0 < timeoutMs) :
    (∀ e, getCommentsRaw limit winner stream provErr = .error e →
        getComments videoId limit timeoutMs winner stream provErr = [])
    ∧ (winner = .timer →
        getComments videoId limit timeoutMs winner stream provErr = [])
    ∧ (∀ (oracle : String → CommentFetch) (fault : Video → Bool) (v : Video),
        (oracle v.id).winner = .timer → fault v = false →
        ∃ ev, enrichOne oracle fault v = some ev ∧ ev.comments = []) := by
  refine ⟨?_, ?_, ?_⟩
  · intro e he
    unfold getComments
    rw [he]
  · intro hw
    subst hw
    rfl
  · intro oracle fault v hw hf
    have hcm : getComments v.id 15 8000 (oracle v.id).winner
        (oracle v.id).stream (oracle v.id).provErr = [] := by
      rw [hw]
      rfl
    have he : enrichOne oracle fault v =
        some { id := v.id
               title := jsOrString v.title "Unknown Title"
               url := jsOrString v.url ("https://youtube.com/watch?v=" ++ v.id)
               views := viewsOrZero v
               uploadedAt := jsOrNullString v.uploadedAt
               comments := getComments v.id 15 8000 (oracle v.id).winner
                 (oracle v.id).stream (oracle v.id).provErr } := by
      unfold enrichOne
      rw [hf]
      rfl
    exact ⟨_, he, hcm⟩

/-- C6 witness: a timed-out fetch with the default parameters yields
the empty list. -/
theorem getComments_never_fails_witness :
    getComments "v" 15 8000 RaceWinner.timer [] none = [] :=
  (getComments_never_fails "v" 15 8000 RaceWinner.timer [] none (by decide)).2.1 rfl

/- ------------------------------------------------------------------ -/
/- C8: shape of a successful comment fetch                            -/
/- ------------------------------------------------------------------ -/

/-- C8 counterexample: with `limit = 0` the loop pushes the first
long-enough comment BEFORE testing the break condition, so the fetch
returns one comment — more than `limit`. -/
theorem getComments_limit_zero_overshoot :
    getComments "v" 0 8000 RaceWinner.task [Comment.mk "aaaaaaaaaaaaaaaa"] none
      = ["aaaaaaaaaaaaaaaa"]
    ∧ ¬((getComments "v" 0 8000 RaceWinner.task
        [Comment.mk "aaaaaaaaaaaaaaaa"] none).length ≤ 0) := by
  decide

/-- C8 (amended): for every `limit ≥ 1`, a successful raced task
returns at most `limit` comments, each strictly longer than 15
characters, in the provider's iteration order (a sublist of the
stream's texts); for `limit = 0` the result may contain one comment. -/
theorem getComments_success_shape (limit : Nat) (stream : List Comment)
    (provErr : Option String) (cs : List String) (hl : 1 ≤ limit)
    (hok : getCommentsRaw limit .task stream provErr = .ok cs) :
    cs.length ≤ limit ∧ (∀ s ∈ cs, 15 < s.length)
    ∧ cs.Sublist (stream.map Comment.text) := by
  have h := commentLoop_ok_eq limit stream [] provErr cs (by simpa using hl) hok
  simp only [List.nil_append, Nat.sub_zero] at h
  subst h
  refine ⟨?_, ?_, ?_⟩
  · simp
  · intro s hs
    have := List.mem_filter.mp (List.mem_of_mem_take hs)
    simpa using this.2
  · exact (List.take_sublist _ _).trans (List.filter_sublist _)

/-- C8 witness: a stream with one short and one long comment at
`limit = 2` satisfies the amended shape. -/
theorem getComments_success_shape_witness :
    (["aaaaaaaaaaaaaaaaaa"] : List String).length ≤ 2
    ∧ (∀ s ∈ (["aaaaaaaaaaaaaaaaaa"] : List String), 15 < s.length)
    ∧ (["aaaaaaaaaaaaaaaaaa"] : List String).Sublist
        ([Comment.mk "sh", Comment.mk "aaaaaaaaaaaaaaaaaa"].map Comment.text) :=
  getComments_success_shape 2 [Comment.mk "sh", Comment.mk "aaaaaaaaaaaaaaaaaa"]
    none ["aaaaaaaaaaaaaaaaaa"] (by decide) rfl

/- ------------------------------------------------------------------ -/
/- Batch scheduler: loop invariants (shared helpers)                  -/
/- ------------------------------------------------------------------ -/

/-- One batch slice followed by the rest of the list reassembles the
tail being processed: `items.slice(i, i + b)` concatenated with the
elements from index `i + b` on gives the elements from index `i` on. -/
theorem jsSlice_batch (l : List α) (i b : Int) (hi : 0 ≤ i)
    (hlen : i < (l.length : Int)) (hb : 1 ≤ b) :
    jsSlice l i (i + b) ++ l.drop ((i + b).toNat) = l.drop i.toNat := by
  have hnn : ¬ i < 0 := by omega
  have hnn2 : ¬ i + b < 0 := by omega
  have hmin : min i.toNat l.length = i.toNat := by omega
  unfold jsSlice jsSliceIndex
  rw [if_neg hnn, if_neg hnn2, hmin, List.drop_take]
  by_cases hcase : (i + b).toNat ≤ l.length
  · have hmin2 : min (i + b).toNat l.length = (i + b).toNat := by omega
    rw [hmin2]
    have hdd : l.drop ((i + b).toNat)
        = (l.drop i.toNat).drop ((i + b).toNat - i.toNat) := by
      rw [List.drop_drop]
      congr 1
      omega
    rw [hdd, List.take_append_drop]
  · have hmin2 : min (i + b).toNat l.length = l.length := by omega
    have h0 : l.drop ((i + b).toNat) = [] := List.drop_eq_nil_of_le (by omega)
    rw [hmin2, h0, List.append_nil]
    apply List.take_of_length_le
    rw [List.length_drop]

/-- Loop invariant of `runInBatches` for a positive batch size: with
enough fuel left, running from index `i` appends one settled outcome
per remaining item, in order. -/
theorem runInBatchesFuel_eq (fn : α → Except ε β) (items : List α) (b : Int)
    (hb : 1 ≤ b) :
    ∀ (fuel : Nat) (i : Int) (acc : List (Except ε β)), 0 ≤ i →
      items.length - i.toNat < fuel →
      runInBatchesFuel fn items b fuel i acc
        = some (acc ++ (items.drop i.toNat).map fn) := by
  intro fuel
  induction fuel with
  | zero =>
      intro i acc hi hfuel
      exact absurd hfuel (Nat.not_lt_zero _)
  | succ fuel ih =>
      intro i acc hi hfuel
      by_cases hlt : i < (items.length : Int)
      · simp only [runInBatchesFuel]
        rw [if_pos hlt, ih (i + b) _ (by omega) (by omega), List.append_assoc,
          ← List.map_append, jsSlice_batch items i b hi hlt hb]
      · simp only [runInBatchesFuel]
        rw [if_neg hlt, List.drop_eq_nil_of_le (by omega), List.map_nil,
          List.append_nil]

/-- With a positive batch size `runInBatches` terminates within its
fuel and returns one settled outcome per item, in input order. -/
theorem runInBatches_spec (items : List α) (b : Int) (fn : α → Except ε β)
    (hb : 1 ≤ b) :
    runInBatches items b fn = some (items.map fn) := by
  unfold runInBatches
  rw [runInBatchesFuel_eq fn items b hb (items.length + 1) 0 [] (le_refl 0)
    (by omega)]
  simp

/-- With a non-positive batch size and a non-empty item list, the loop
index never advances past the list: every fuel is exhausted. -/
theorem runInBatchesFuel_stuck (fn : α → Except ε β) (items : List α) (b : Int)
    (hb : b ≤ 0) (hne : items ≠ []) :
    ∀ (fuel : Nat) (i : Int) (acc : List (Except ε β)), i ≤ 0 →
      runInBatchesFuel fn items b fuel i acc = none := by
  intro fuel
  induction fuel with
  | zero => intro i acc _; rfl
  | succ fuel ih =>
      intro i acc hi
      have hlen : 0 < items.length := List.length_pos.mpr hne
      have hlt : i < (items.length : Int) := by omega
      simp only [runInBatchesFuel]
      rw [if_pos hlt]
      exact ih (i + b) _ (by omega)

/- ------------------------------------------------------------------ -/
/- C7: outcomes of runInBatches                                       -/
/- ------------------------------------------------------------------ -/

/-- C7: for every item list, every `batchSize ≥ 1` and every settled
behaviour `fn` of the per-item asynchronous function, `runInBatches`
returns exactly the list of per-item outcomes in input order —
position `k` of the output is `fn` applied to position `k` of the
input, so a rejection at one item occupies that item's position only
and leaves every other outcome unchanged. -/
theorem runInBatches_outcomes (items : List α) (batchSize : Int)
    (fn : α → Except ε β) (hb : 1 ≤ batchSize) :
    runInBatches items batchSize fn = some (items.map fn) :=
  runInBatches_spec items batchSize fn hb

/-- C7 witness: three items in batches of two, the middle one
rejecting: one outcome per item, rejection isolated at position 1. -/
theorem runInBatches_outcomes_witness :
    runInBatches [1, 2, 3] 2
      (fun n => if n = 2 then (Except.error "boom" : Except String Nat)
        else Except.ok n)
      = some [Except.ok 1, Except.error "boom", Except.ok 3] :=
  (runInBatches_outcomes [1, 2, 3] 2
    (fun n => if n = 2 then (Except.error "boom" : Except String Nat)
      else Except.ok n) (by decide)).trans (by rfl)

/- ------------------------------------------------------------------ -/
/- C10: termination of runInBatches                                   -/
/- ------------------------------------------------------------------ -/

/-- C10: the loop of `runInBatches` terminates exactly when
`batchSize ≥ 1` or `items` is empty: in the first case the fueled loop
returns a result within `items.length + 1` iterations, and when
`batchSize ≤ 0` with non-empty `items` the index never advances past
the list, so every fuel ends in exhaustion (`none`) — the JavaScript
loop never returns. -/
theorem runInBatches_termination (items : List α) (batchSize : Int)
    (fn : α → Except ε β) :
    ((1 ≤ batchSize ∨ items = []) → (runInBatches items batchSize fn).isSome = true)
    ∧ (batchSize ≤ 0 → items ≠ [] →
        ∀ (fuel : Nat) (acc : List (Except ε β)),
          runInBatchesFuel fn items batchSize fuel 0 acc = none) := by
  constructor
  · rintro (hb | hnil)
    · rw [runInBatches_spec items batchSize fn hb]
      rfl
    · subst hnil
      rfl
  · intro hb hne fuel acc
    exact runInBatchesFuel_stuck fn items batchSize hb hne fuel 0 acc (le_refl 0)

/-- C10 witness: `batchSize = 1` terminates on `[1, 2, 3]`, while
`batchSize = 0` exhausts an arbitrary fuel (here 5) on the same
list. -/
theorem runInBatches_termination_witness :
    (runInBatches [1, 2, 3] 1 (fun n => (Except.ok n : Except String Nat))).isSome = true
    ∧ runInBatchesFuel (fun n => (Except.ok n : Except String Nat)) [1, 2, 3] 0 5 0 [] = none :=
  ⟨(runInBatches_termination [1, 2, 3] 1 _).1 (Or.inl (by decide)),
   (runInBatches_termination [1, 2, 3] 0 _).2 (by decide) (by decide) 5 []⟩

/- ------------------------------------------------------------------ -/
/- Stable sort: permutation facts (shared helpers)                    -/
/- ------------------------------------------------------------------ -/

/-- Inserting into a list permutes consing onto it. -/
theorem jsInsert_perm (le : α → α → Bool) (x : α) :
    ∀ l : List α, (jsInsert le x l).Perm (x :: l) := by
  intro l
  induction l with
  | nil => exact List.Perm.refl _
  | cons y ys ih =>
      unfold jsInsert
      by_cases h : le x y
      · rw [if_pos h]
      · rw [if_neg h]
        exact (ih.cons y).trans (List.Perm.swap x y ys)

/-- The stable sort permutes its input. -/
theorem jsStableSort_perm (le : α → α → Bool) :
    ∀ l : List α, (jsStableSort le l).Perm l := by
  intro l
  induction l with
  | nil => exact List.Perm.refl _
  | cons x xs ih =>
      exact (jsInsert_perm le x (jsStableSort le xs)).trans (ih.cons x)

/- ------------------------------------------------------------------ -/
/- Map-based dedup: invariants (shared helpers)                       -/
/- ------------------------------------------------------------------ -/

/-- Membership after one `map.set` step: either the new pair, or an
old pair whose key differs from the inserted key. -/
theorem mem_jsMapSet (acc : List (String × Video)) (k : String) (v : Video)
    (p : String × Video) (h : p ∈ jsMapSet acc k v) :
    p = (k, v) ∨ (p ∈ acc ∧ p.1 ≠ k) := by
  unfold jsMapSet at h
  split at h
  · rcases List.mem_map.mp h with ⟨q, hq, hqe⟩
    by_cases hqk : q.1 = k
    · left
      rw [← hqe, if_pos hqk]
    · right
      rw [← hqe, if_neg hqk]
      exact ⟨hq, hqk⟩
  · rcases List.mem_append.mp h with hmem | hmem
    · right
      refine ⟨hmem, fun hk => ?_⟩
      next hany =>
        exact hany (List.any_eq_true.mpr ⟨p, hmem, by simp [hk]⟩)
    · left
      simpa using hmem

/-- If the inserted key is already present, the key sequence is
unchanged. -/
theorem jsMapSet_fst_mem (acc : List (String × Video)) (k : String) (v : Video)
    (h : acc.any (fun p => p.1 = k) = true) :
    (jsMapSet acc k v).map Prod.fst = acc.map Prod.fst := by
  unfold jsMapSet
  rw [if_pos h, List.map_map]
  apply List.map_congr_left
  intro p _
  by_cases hp : p.1 = k
  · simp [hp]
  · simp [hp]

/-- If the inserted key is new, it is appended to the key sequence. -/
theorem jsMapSet_fst_new (acc : List (String × Video)) (k : String) (v : Video)
    (h : acc.any (fun p => p.1 = k) = false) :
    (jsMapSet acc k v).map Prod.fst = acc.map Prod.fst ++ [k] := by
  unfold jsMapSet
  rw [if_neg (by simp [h]), List.map_append]
  rfl

/-- Building the map preserves distinctness of the key sequence. -/
theorem jsMapPairs_nodup_aux :
    ∀ (l : List Video) (acc : List (String × Video)),
      (acc.map Prod.fst).Nodup →
      ((l.foldl (fun acc v => jsMapSet acc v.id v) acc).map Prod.fst).Nodup := by
  intro l
  induction l with
  | nil => intro acc h; exact h
  | cons v rest ih =>
      intro acc h
      simp only [List.foldl_cons]
      apply ih
      cases hany : acc.any (fun p => p.1 = v.id) with
      | true => rw [jsMapSet_fst_mem _ _ _ hany]; exact h
      | false =>
          rw [jsMapSet_fst_new _ _ _ hany]
          have hnot : v.id ∉ acc.map Prod.fst := by
            intro hmem
            rcases List.mem_map.mp hmem with ⟨p, hp, hpk⟩
            have : acc.any (fun p => p.1 = v.id) = true :=
              List.any_eq_true.mpr ⟨p, hp, by simp [hpk]⟩
            rw [hany] at this
            cases this
          simp [List.nodup_append, h, hnot]

/-- The keys of the dedup map are pairwise distinct. -/
theorem jsMapPairs_keys_nodup (l : List Video) :
    ((jsMapPairs l).map Prod.fst).Nodup :=
  jsMapPairs_nodup_aux l [] (by simp)

/-- Every pair of the dedup map has its value's id as its key. -/
theorem jsMapPairs_inv_aux :
    ∀ (l : List Video) (acc : List (String × Video)),
      (∀ p ∈ acc, p.2.id = p.1) →
      ∀ p ∈ l.foldl (fun acc v => jsMapSet acc v.id v) acc, p.2.id = p.1 := by
  intro l
  induction l with
  | nil => intro acc h; exact h
  | cons v rest ih =>
      intro acc h
      simp only [List.foldl_cons]
      apply ih
      intro p hp
      rcases mem_jsMapSet acc v.id v p hp with hp1 | ⟨hp1, _⟩
      · rw [hp1]
      · exact h p hp1

/-- Every value of the dedup map has its key as id. -/
theorem jsMapPairs_inv (l : List Video) :
    ∀ p ∈ jsMapPairs l, p.2.id = p.1 :=
  jsMapPairs_inv_aux l [] (by simp)

/-- Last-set-wins invariant: the value stored under a key is the value
of the LAST entry with that key among the entries processed so far. -/
theorem jsMapPairs_last_aux :
    ∀ (l : List Video) (processed : List Video) (acc : List (String × Video)),
      (∀ p ∈ acc,
        (processed.filter (fun w => w.id = p.1)).getLast? = some p.2) →
      ∀ p ∈ l.foldl (fun acc v => jsMapSet acc v.id v) acc,
        ((processed ++ l).filter (fun w => w.id = p.1)).getLast? = some p.2 := by
  intro l
  induction l with
  | nil =>
      intro processed acc h p hp
      simpa using h p hp
  | cons v rest ih =>
      intro processed acc h p hp
      simp only [List.foldl_cons] at hp
      have step : ∀ q ∈ jsMapSet acc v.id v,
          ((processed ++ [v]).filter (fun w => w.id = q.1)).getLast? = some q.2 := by
        intro q hq
        rcases mem_jsMapSet acc v.id v q hq with hq1 | ⟨hq1, hq2⟩
        · subst hq1
          rw [List.filter_append]
          have hone : [v].filter (fun w => w.id = (v.id, v).1) = [v] := by simp
          rw [hone, List.getLast?_concat]
        · rw [List.filter_append]
          have hnone : [v].filter (fun w => w.id = q.1) = [] := by
            have hne : ¬ v.id = q.1 := fun hh => hq2 hh.symm
            simp [hne]
          rw [hnone, List.append_nil]
          exact h q hq1
      have hres := ih (processed ++ [v]) (jsMapSet acc v.id v) step p hp
      simpa [List.append_assoc] using hres

/-- Last-set-wins for the whole dedup map. -/
theorem jsMapPairs_last (l : List Video) :
    ∀ p ∈ jsMapPairs l, (l.filter (fun w => w.id = p.1)).getLast? = some p.2 := by
  intro p hp
  simpa using jsMapPairs_last_aux l [] [] (by simp) p hp

/- ------------------------------------------------------------------ -/
/- C1: which duplicate survives dedup                                 -/
/- ------------------------------------------------------------------ -/

/-- C1 counterexample: two entries with the same id and different view
counts; the survivor of dedup (and of the ranked list) is the SECOND
occurrence, not the first — `new Map` overwrites the value on a repeated
key. -/
theorem dedup_first_occurrence_loses :
    jsMapValues [Video.mk "a" none none (some 1) none,
        Video.mk "a" none none (some 2) none]
      = [Video.mk "a" none none (some 2) none]
    ∧ uniqueVideosOf [Video.mk "a" none none (some 1) none,
        Video.mk "a" none none (some 2) none] 15
      = [Video.mk "a" none none (some 2) none]
    ∧ (Video.mk "a" none none (some 2) none) ≠ (Video.mk "a" none none (some 1) none) := by
  decide

/-- C1 (amended): deduplication keeps the value of the LAST
occurrence: every entry surviving into the deduplicated sequence is
the last entry of the merged list bearing its id (it sits at the
position of the id's first occurrence, but carries the latest
value). -/
theorem dedup_keeps_last (l : List Video) (w : Video)
    (hw : w ∈ jsMapValues l) :
    (l.filter (fun x => x.id = w.id)).getLast? = some w := by
  rcases List.mem_map.mp hw with ⟨p, hp, hpw⟩
  have hlast := jsMapPairs_last l p hp
  have hid := jsMapPairs_inv l p hp
  subst hpw
  rw [hid]
  exact hlast

/-- C1 witness: a singleton list survives as itself. -/
theorem dedup_keeps_last_witness :
    (([Video.mk "b" none none (some 3) none].filter
        (fun x => x.id = (Video.mk "b" none none (some 3) none).id)).getLast?)
      = some (Video.mk "b" none none (some 3) none) :=
  dedup_keeps_last [Video.mk "b" none none (some 3) none]
    (Video.mk "b" none none (some 3) none) (by decide)

/- ------------------------------------------------------------------ -/
/- C3: which entries the merge/rank pipeline drops                    -/
/- ------------------------------------------------------------------ -/

/-- C3 counterexample: an entry with an identifier but no view count
passes the merge filter but is dropped by the post-dedup filter
`(v) => v && v.views && v.id` — it is NOT retained in the ranked
list. -/
theorem entry_without_views_dropped :
    mergedOf [Except.ok [some (Video.mk "b" none none none none)]]
      = [Video.mk "b" none none none none]
    ∧ uniqueVideosOf (mergedOf [Except.ok [some (Video.mk "b" none none none none)]]) 15
      = [] := by
  decide

/-- C3 (amended): entries lacking an identifier are dropped at the
merge step, and after deduplication every entry whose view count is
absent OR zero is dropped as well (since `v.views` must be truthy), so
every entry of the ranked list has a non-empty id and a positive view
count; the `views || 0` fallback of the comparator never applies to a
missing view count. -/
theorem ranked_entries_have_id_and_views (merged : List Video) (vc : Int)
    (v : Video) (hv : v ∈ uniqueVideosOf merged vc) :
    v.id ≠ "" ∧ ∃ n, v.views = some n ∧ n ≠ 0 := by
  unfold uniqueVideosOf jsSlice at hv
  have hv1 : v ∈ jsStableSort viewsDescLe
      ((jsMapValues merged).filter fun w => viewsTruthy w && decide (w.id ≠ "")) :=
    List.mem_of_mem_take (List.mem_of_mem_drop hv)
  have hv2 : v ∈ (jsMapValues merged).filter
      (fun w => viewsTruthy w && decide (w.id ≠ "")) :=
    (jsStableSort_perm viewsDescLe _).mem_iff.mp hv1
  have hv3 := (List.mem_filter.mp hv2).2
  simp only [Bool.and_eq_true, decide_eq_true_eq] at hv3
  rcases hv3 with ⟨hvt, hvid⟩
  refine ⟨hvid, ?_⟩
  unfold viewsTruthy at hvt
  rcases hviews : v.views with _ | n
  · rw [hviews] at hvt
    cases hvt
  · rw [hviews] at hvt
    exact ⟨n, rfl, of_decide_eq_true hvt⟩

/-- C3 witness: an entry with id and positive views is ranked and has
the amended properties. -/
theorem ranked_entries_have_id_and_views_witness :
    (Video.mk "a" none none (some 5) none).id ≠ ""
    ∧ ∃ n, (Video.mk "a" none none (some 5) none).views = some n ∧ n ≠ 0 :=
  ranked_entries_have_id_and_views [Video.mk "a" none none (some 5) none] 15
    (Video.mk "a" none none (some 5) none) (by decide)

/- ------------------------------------------------------------------ -/
/- C4: the empty short-circuit                                        -/
/- ------------------------------------------------------------------ -/

/-- C4 counterexample: a merged list that becomes empty only at the
views filter (one entry with `views = 0`) does NOT take the
short-circuit: the response has an empty `videos` array but NO message
field, because the emptiness test runs on `merged`, before
dedup/filter/ranking. -/
theorem filtered_empty_no_message :
    uniqueVideosOf (mergedOf [Except.ok [some (Video.mk "a" none none (some 0) none)]]) 15 = []
    ∧ (searchHandlerCore "q" 4 15 [Except.ok [some (Video.mk "a" none none (some 0) none)]]
        (fun _ => CommentFetch.mk RaceWinner.task [] none) (fun _ => false)).videos = []
    ∧ (searchHandlerCore "q" 4 15 [Except.ok [some (Video.mk "a" none none (some 0) none)]]
        (fun _ => CommentFetch.mk RaceWinner.task [] none) (fun _ => false)).message = none := by
  decide

/-- C4 (amended): the short-circuit — a response with empty `videos`
and an explanatory message, with enrichment skipped — happens exactly
when the MERGED list (after concatenation and the id-presence filter,
but before dedup, the views filter, and ranking) is empty: the
response carries a message iff `merged` is empty, and in that case the
response is the fixed no-results body, independent of the enrichment
behaviour. -/
theorem empty_merge_short_circuit (query : String) (sc vc : Int)
    (searchResults : SettledSearch) (oracle : String → CommentFetch)
    (fault : Video → Bool) :
    ((searchHandlerCore query sc vc searchResults oracle fault).message.isSome = true
      ↔ mergedOf searchResults = [])
    ∧ (mergedOf searchResults = [] →
        searchHandlerCore query sc vc searchResults oracle fault
          = noResultsResponse query sc vc) := by
  by_cases h : mergedOf searchResults = []
  · have hcore : searchHandlerCore query sc vc searchResults oracle fault
        = noResultsResponse query sc vc := by
      simp only [searchHandlerCore]
      rw [if_pos (List.isEmpty_iff.mpr h)]
    refine ⟨?_, fun _ => hcore⟩
    rw [hcore]
    simp [noResultsResponse, h]
  · have hne : ¬ (mergedOf searchResults).isEmpty = true := by
      rw [List.isEmpty_iff]
      exact h
    refine ⟨?_, fun hc => absurd hc h⟩
    simp only [searchHandlerCore]
    rw [if_neg hne]
    simp [h]

/-- C4 witness: when every per-term search fails, `merged` is empty
and the handler returns the no-results body. -/
theorem empty_merge_short_circuit_witness :
    searchHandlerCore "w" 1 2 [Except.error "x"]
      (fun _ => CommentFetch.mk RaceWinner.task [] none) (fun _ => false)
      = noResultsResponse "w" 1 2 :=
  (empty_merge_short_circuit "w" 1 2 [Except.error "x"]
    (fun _ => CommentFetch.mk RaceWinner.task [] none) (fun _ => false)).2 rfl

/- ------------------------------------------------------------------ -/
/- C9: dedup invariant of the response                                -/
/- ------------------------------------------------------------------ -/

/-- The id sequence of the ranked list is pairwise distinct. -/
theorem uniqueVideosOf_ids_nodup (merged : List Video) (vc : Int) :
    ((uniqueVideosOf merged vc).map Video.id).Nodup := by
  have h2 : (jsMapValues merged).map Video.id = (jsMapPairs merged).map Prod.fst := by
    unfold jsMapValues
    rw [List.map_map]
    exact List.map_congr_left (fun p hp => jsMapPairs_inv merged p hp)
  have h3 : ((jsMapValues merged).map Video.id).Nodup := by
    rw [h2]
    exact jsMapPairs_keys_nodup merged
  have h4 : ((((jsMapValues merged).filter
      (fun w => viewsTruthy w && decide (w.id ≠ ""))).map Video.id)).Sublist
      ((jsMapValues merged).map Video.id) :=
    (List.filter_sublist _).map _
  have h5 := h3.sublist h4
  have hperm := (jsStableSort_perm viewsDescLe ((jsMapValues merged).filter
      (fun w => viewsTruthy w && decide (w.id ≠ "")))).map Video.id
  have h6 := h5.perm hperm.symm
  unfold uniqueVideosOf jsSlice
  exact h6.sublist
    (((List.drop_sublist _ _).trans (List.take_sublist _ _)).map Video.id)

/-- The enrichment stage maps each ranked video to a record carrying
the same id (or drops it), so the response id sequence is a
subsequence of the ranked id sequence. -/
theorem enriched_ids_sublist (oracle : String → CommentFetch)
    (fault : Video → Bool) :
    ∀ l : List Video,
      ((((l.map (fun v => (Except.ok (enrichOne oracle fault v) :
            Except String (Option EnrichedVideo)))).filterMap
          (fun r => match r with
            | .ok (some e) => some e
            | _ => none)).map EnrichedVideo.id)).Sublist (l.map Video.id) := by
  intro l
  induction l with
  | nil => simp
  | cons v rest ih =>
      simp only [List.map_cons, List.filterMap_cons]
      rcases he : enrichOne oracle fault v with _ | ev
      · dsimp only
        exact ih.cons v.id
      · dsimp only
        have hid : ev.id = v.id := by
          unfold enrichOne at he
          split at he
          · cases he
          · rw [← Option.some.inj he]
        rw [List.map_cons, hid]
        exact ih.cons₂ v.id

/-- C9: no two entries of the `videos` array of any handler response
share the same id (their id sequence is pairwise distinct). -/
theorem response_ids_nodup (query : String) (sc vc : Int)
    (searchResults : SettledSearch) (oracle : String → CommentFetch)
    (fault : Video → Bool) :
    (((searchHandlerCore query sc vc searchResults oracle fault).videos).map
      EnrichedVideo.id).Nodup := by
  simp only [searchHandlerCore]
  split
  · simp [noResultsResponse]
  · rw [runInBatches_spec _ 5 _ (by decide)]
    simp only [Option.getD_some]
    exact (uniqueVideosOf_ids_nodup _ vc).sublist (enriched_ids_sublist oracle fault _)
